import Mathlib

/-!
Verification development for the SQL throughput benchmark repository.

The repository benchmarks five strategies that read up to `limit` rows from a
PostgreSQL table `public.records`, profiles each execution, merges the
profiler's measurements into the strategy's reported result, and aggregates
statistics across repeated runs.

This file gives a shallow embedding of the core logic:

* Python `float` values are modelled as rationals (`ℚ`); Python's `round`
  (banker's rounding) is modelled by `pyRoundInt` / `roundFloat` below.
* The database table is modelled as the list of its `id` column values in
  ascending order (the row payloads are irrelevant: every piece of code under
  verification only counts rows).
* Queries are modelled as list operations, e.g.
  `SELECT * FROM public.records ORDER BY id LIMIT n` becomes `List.take n`.
* Stateful control flow (the orchestrator's measurement loop, try/finally
  cleanup) is modelled by explicit recursion that also returns the trace of
  `close()` invocations and the propagated exception, if any.
-/

/-- Round-half-even on `ℚ`, the tie-breaking rule of Python's built-in
`round` applied to floats. -/
def pyRoundInt (x : ℚ) : ℤ :=
  if 2 * (x - ⌊x⌋) = 1 then (if ⌊x⌋ % 2 = 0 then ⌊x⌋ else ⌊x⌋ + 1) else round x

/-- Embeds `_round_float(value, decimals)` from `src/orchestrator.py`:
round a float to the given number of decimal places. -/
def roundFloat (value : ℚ) (decimals : ℕ) : ℚ :=
  (pyRoundInt (value * 10 ^ decimals) : ℚ) / 10 ^ decimals

/-- Python truthiness of an optional float (`None` and `0.0` are falsy). -/
def truthyQ : Option ℚ → Bool
  | none => false
  | some v => v != 0

/-- Python truthiness of an optional int (`None` and `0` are falsy). -/
def truthyZ : Option ℤ → Bool
  | none => false
  | some v => v != 0

/-- The `extra` mapping attached by the orchestrator to a tolerant-mode
failure result (`_profiled_execute` in `src/orchestrator.py`). -/
structure FailureExtra where
  failed : Bool
  error_type : String
  failure_policy : String
deriving Repr, DecidableEq

/-- Embeds the `StrategyResult` TypedDict (`src/strategies/abstract.py`,
`total=False`: every key may be absent, hence `Option`). -/
structure StrategyResult where
  rows : Option ℕ
  duration_seconds : Option ℚ
  throughput_rows_per_sec : Option ℚ
  peak_rss_bytes : Option ℤ
  cpu_percent : Option ℚ
  error : Option String
  notes : Option String
  extra : Option FailureExtra
deriving Repr, DecidableEq

/-- Embeds the `ProfileStats` dataclass (`src/utils/profiler.py`). -/
structure ProfileStats where
  label : String
  start_ts : ℚ
  end_ts : ℚ
  duration_seconds : ℚ
  peak_rss_bytes : Option ℤ
  peak_traced_bytes : Option ℤ
  cpu_percent : Option ℚ
deriving Repr, DecidableEq

/-- The `profile` sub-dictionary built by `_merge_result`. -/
structure ProfileSummary where
  label : String
  start_ts : ℚ
  end_ts : ℚ
  duration_seconds : ℚ
  peak_rss_bytes : Option ℤ
  cpu_percent : Option ℚ
deriving Repr, DecidableEq

/-- The merged per-run result dictionary produced by `_merge_result`
(`src/orchestrator.py`): the strategy's keys plus the profiler-authoritative
metric fields. -/
structure MergedResult where
  rows : ℕ
  duration_seconds : ℚ
  throughput_rows_per_sec : ℚ
  peak_rss_bytes : Option ℤ
  cpu_percent : Option ℚ
  error : Option String
  notes : Option String
  extra : Option FailureExtra
  profile : ProfileSummary
deriving Repr, DecidableEq

/-- Embeds `_merge_result(result, stats)` from `src/orchestrator.py`:
`merged = dict(result)`, `merged.setdefault("rows", 0)`, then the
duration, throughput, peak RSS and CPU fields are overwritten from the
profiler stats, and a `profile` sub-record is attached. -/
def merge_result (result : StrategyResult) (stats : ProfileStats) : MergedResult :=
  let rows := result.rows.getD 0
  let duration_seconds := roundFloat stats.duration_seconds 2
  let throughput :=
    if duration_seconds ≠ 0 then roundFloat ((rows : ℚ) / duration_seconds) 2 else 0
  let cpu :=
    if truthyQ stats.cpu_percent then some (roundFloat (stats.cpu_percent.getD 0) 1)
    else none
  { rows := rows
    duration_seconds := duration_seconds
    throughput_rows_per_sec := throughput
    peak_rss_bytes := stats.peak_rss_bytes
    cpu_percent := cpu
    error := result.error
    notes := result.notes
    extra := result.extra
    profile :=
      { label := stats.label
        start_ts := roundFloat stats.start_ts 3
        end_ts := roundFloat stats.end_ts 3
        duration_seconds := roundFloat stats.duration_seconds 2
        peak_rss_bytes := stats.peak_rss_bytes
        cpu_percent := cpu } }

lemma roundFloat_of_int (n : ℤ) (d : ℕ) : roundFloat (n : ℚ) d = n := by
  unfold roundFloat pyRoundInt
  have h10 : ((10 : ℚ) ^ d) ≠ 0 := by positivity
  have hfl : ⌊(n : ℚ) * 10 ^ d⌋ = n * 10 ^ d := by
    rw [show ((n : ℚ) * 10 ^ d) = ((n * 10 ^ d : ℤ) : ℚ) by push_cast; ring]
    exact Int.floor_intCast _
  rw [hfl]
  have hz : 2 * ((n : ℚ) * 10 ^ d - ((n * 10 ^ d : ℤ) : ℚ)) = 0 := by push_cast; ring
  rw [hz]
  simp only [if_neg (by norm_num : (0 : ℚ) ≠ 1)]
  have hr : round ((n : ℚ) * 10 ^ d) = n * 10 ^ d := by
    rw [show ((n : ℚ) * 10 ^ d) = ((n * 10 ^ d : ℤ) : ℚ) by push_cast; ring]
    exact round_intCast _
  rw [hr]
  push_cast
  field_simp

/-- The loop body of `_split_limit_ranges` (`src/strategies/async_stream.py`):
`for index in range(count)` starting from a given `index` and `start_idx`,
emitting `(start_idx, start_idx + chunk_size)` where
`chunk_size = base_size + (1 if index < remainder else 0)`. -/
def splitRangesGo (base rem : ℕ) : ℕ → ℕ → ℕ → List (ℕ × ℕ)
  | 0, _, _ => []
  | count + 1, index, start_idx =>
    (start_idx, start_idx + (base + if index < rem then 1 else 0)) ::
      splitRangesGo base rem count (index + 1)
        (start_idx + (base + if index < rem then 1 else 0))

/-- Embeds `_split_limit_ranges(limit, concurrency)` from
`src/strategies/async_stream.py`. `limit` and `concurrency` are Python ints;
the claims quantify over `limit >= 0`, `concurrency >= 1`, so they are
modelled as `ℕ` and the guard `limit <= 0` becomes `limit = 0`. -/
def split_limit_ranges (limit concurrency : ℕ) : List (ℕ × ℕ) :=
  if limit = 0 then []
  else
    splitRangesGo (limit / max 1 (min concurrency limit))
      (limit % max 1 (min concurrency limit)) (max 1 (min concurrency limit)) 0 0

/-- Total of the chunk sizes emitted for `count` loop iterations starting at
`index`. -/
def sizeSum (base rem : ℕ) : ℕ → ℕ → ℕ
  | 0, _ => 0
  | count + 1, index => (base + if index < rem then 1 else 0) + sizeSum base rem count (index + 1)

lemma splitRangesGo_length (base rem : ℕ) :
    ∀ count index start, (splitRangesGo base rem count index start).length = count := by
  intro count
  induction count with
  | zero => intro index start; rfl
  | succ n ih => intro index start; simp [splitRangesGo, ih]

lemma splitRangesGo_head?_fst (base rem : ℕ) (count index start : ℕ) (h : 0 < count) :
    ((splitRangesGo base rem count index start).head?).map Prod.fst = some start := by
  cases count with
  | zero => omega
  | succ n => rfl

lemma splitRangesGo_ne_nil (base rem : ℕ) (count index start : ℕ) (h : 0 < count) :
    splitRangesGo base rem count index start ≠ [] := by
  cases count with
  | zero => omega
  | succ n => simp [splitRangesGo]

lemma getLast?_cons_of_ne (a : ℕ × ℕ) (l : List (ℕ × ℕ)) (h : l ≠ []) :
    (a :: l).getLast? = l.getLast? := by
  cases l with
  | nil => exact absurd rfl h
  | cons b t => exact List.getLast?_cons_cons

lemma splitRangesGo_chain_cons (base rem : ℕ) :
    ∀ count index start p,
      List.Chain' (fun a b : ℕ × ℕ => a.2 = b.1)
        ((p, start) :: splitRangesGo base rem count index start) := by
  intro count
  induction count with
  | zero => intro index start p; simp [splitRangesGo]
  | succ n ih =>
    intro index start p
    rw [show splitRangesGo base rem (n + 1) index start =
          (start, start + (base + if index < rem then 1 else 0)) ::
            splitRangesGo base rem n (index + 1)
              (start + (base + if index < rem then 1 else 0)) from rfl]
    rw [List.chain'_cons]
    exact ⟨rfl, ih (index + 1) (start + (base + if index < rem then 1 else 0)) start⟩

lemma splitRangesGo_chain (base rem : ℕ) (count index start : ℕ) :
    List.Chain' (fun a b : ℕ × ℕ => a.2 = b.1) (splitRangesGo base rem count index start) := by
  cases count with
  | zero => simp [splitRangesGo]
  | succ n =>
    rw [show splitRangesGo base rem (n + 1) index start =
          (start, start + (base + if index < rem then 1 else 0)) ::
            splitRangesGo base rem n (index + 1)
              (start + (base + if index < rem then 1 else 0)) from rfl]
    exact splitRangesGo_chain_cons base rem n (index + 1) _ start

lemma splitRangesGo_getLast?_snd (base rem : ℕ) :
    ∀ count index start, 0 < count →
      ((splitRangesGo base rem count index start).getLast?).map Prod.snd =
        some (start + sizeSum base rem count index) := by
  intro count
  induction count with
  | zero => intro index start h; omega
  | succ n ih =>
    intro index start _
    cases n with
    | zero => simp [splitRangesGo, sizeSum]
    | succ m =>
      rw [show splitRangesGo base rem (m + 1 + 1) index start =
            (start, start + (base + if index < rem then 1 else 0)) ::
              splitRangesGo base rem (m + 1) (index + 1)
                (start + (base + if index < rem then 1 else 0)) from rfl]
      rw [getLast?_cons_of_ne _ _ (splitRangesGo_ne_nil base rem _ _ _ (Nat.succ_pos m))]
      rw [ih (index + 1) _ (Nat.succ_pos m)]
      have : start + (base + if index < rem then 1 else 0) +
          sizeSum base rem (m + 1) (index + 1) =
          start + sizeSum base rem (m + 1 + 1) index := by
        rw [show sizeSum base rem (m + 1 + 1) index =
              (base + if index < rem then 1 else 0) +
                sizeSum base rem (m + 1) (index + 1) from rfl]
        omega
      rw [this]

lemma sizeSum_eq (base rem : ℕ) :
    ∀ count index, sizeSum base rem count index =
      base * count + (min rem (index + count) - min rem index) := by
  intro count
  induction count with
  | zero => intro index; simp [sizeSum]
  | succ n ih =>
    intro index
    rw [show sizeSum base rem (n + 1) index =
          (base + if index < rem then 1 else 0) + sizeSum base rem n (index + 1) from rfl]
    rw [ih (index + 1)]
    have hm : base * (n + 1) = base * n + base := by ring
    by_cases h : index < rem
    · rw [if_pos h]; omega
    · rw [if_neg h]; omega

lemma sizeSum_total (limit e : ℕ) (he : 0 < e) :
    sizeSum (limit / e) (limit % e) e 0 = limit := by
  rw [sizeSum_eq]
  have hrem : limit % e < e := Nat.mod_lt _ he
  have hdm : e * (limit / e) + limit % e = limit := Nat.div_add_mod limit e
  have hmin : min (limit % e) (0 + e) = limit % e := by omega
  have hmin0 : min (limit % e) 0 = 0 := by omega
  rw [hmin, hmin0]
  have : limit / e * e = e * (limit / e) := Nat.mul_comm _ _
  omega

lemma splitRangesGo_slice_sum (base rem L : ℕ) :
    ∀ count index start,
      ((splitRangesGo base rem count index start).map
        (fun r => min (r.2 - r.1) (L - r.1))).sum =
      min (sizeSum base rem count index) (L - start) := by
  intro count
  induction count with
  | zero => intro index start; simp [splitRangesGo, sizeSum]
  | succ n ih =>
    intro index start
    rw [show splitRangesGo base rem (n + 1) index start =
          (start, start + (base + if index < rem then 1 else 0)) ::
            splitRangesGo base rem n (index + 1)
              (start + (base + if index < rem then 1 else 0)) from rfl]
    rw [List.map_cons, List.sum_cons, ih]
    rw [show sizeSum base rem (n + 1) index =
          (base + if index < rem then 1 else 0) + sizeSum base rem n (index + 1) from rfl]
    omega

lemma split_limit_ranges_slice_sum (L limit concurrency : ℕ) :
    ((split_limit_ranges limit concurrency).map
      (fun r => min (r.2 - r.1) (L - r.1))).sum = min limit L := by
  by_cases hl : limit = 0
  · simp [split_limit_ranges, hl]
  · rw [split_limit_ranges, if_neg hl, splitRangesGo_slice_sum,
      sizeSum_total _ _ (by omega)]
    omega

/-- C3: for `concurrency >= 1`, `_split_limit_ranges(limit, concurrency)`
tiles `[0, limit)` exactly: the first range starts at 0, each range's end is
the next range's start, the last range ends at `limit`, and when `limit > 0`
the number of ranges is `min concurrency limit`; the two examples from the
spec evaluate as stated. -/
theorem c3_split_limit_ranges_tiling (limit concurrency : ℕ) (hc : 1 ≤ concurrency) :
    (limit = 0 → split_limit_ranges limit concurrency = []) ∧
    (0 < limit →
      ((split_limit_ranges limit concurrency).head?).map Prod.fst = some 0 ∧
      List.Chain' (fun a b : ℕ × ℕ => a.2 = b.1) (split_limit_ranges limit concurrency) ∧
      ((split_limit_ranges limit concurrency).getLast?).map Prod.snd = some limit ∧
      (split_limit_ranges limit concurrency).length = min concurrency limit) ∧
    split_limit_ranges 10 3 = [(0, 4), (4, 7), (7, 10)] ∧
    split_limit_ranges 3 5 = [(0, 1), (1, 2), (2, 3)] := by
  refine ⟨?_, ?_, by decide, by decide⟩
  · intro h; simp [split_limit_ranges, h]
  · intro hl
    have hne : limit ≠ 0 := by omega
    have he : 0 < max 1 (min concurrency limit) := by omega
    refine ⟨?_, ?_, ?_, ?_⟩
    · rw [split_limit_ranges, if_neg hne]
      exact splitRangesGo_head?_fst _ _ _ _ _ he
    · rw [split_limit_ranges, if_neg hne]
      exact splitRangesGo_chain _ _ _ _ _
    · rw [split_limit_ranges, if_neg hne]
      rw [splitRangesGo_getLast?_snd _ _ _ _ _ he, sizeSum_total _ _ he]
      norm_num
    · rw [split_limit_ranges, if_neg hne, splitRangesGo_length]
      omega

theorem c3_split_limit_ranges_tiling_witness :
    1 ≤ 3 ∧
    ((10 = 0 → split_limit_ranges 10 3 = []) ∧
     (0 < 10 →
       ((split_limit_ranges 10 3).head?).map Prod.fst = some 0 ∧
       List.Chain' (fun a b : ℕ × ℕ => a.2 = b.1) (split_limit_ranges 10 3) ∧
       ((split_limit_ranges 10 3).getLast?).map Prod.snd = some 10 ∧
       (split_limit_ranges 10 3).length = min 3 10) ∧
     split_limit_ranges 10 3 = [(0, 4), (4, 7), (7, 10)] ∧
     split_limit_ranges 3 5 = [(0, 1), (1, 2), (2, 3)]) :=
  ⟨by decide, c3_split_limit_ranges_tiling 10 3 (by decide)⟩

/-- Embeds `MultiprocessingStrategy._make_work_items`
(`src/strategies/multiprocessing.py`): walk the selected identifier list in
strides of `chunk_size`, emitting the non-empty slices
`ids[start : start + chunk_size]` in order. Each slice is wrapped in a
`WorkItem` whose only field is the id list, so a work item is modelled as the
id list itself. Python raises `ValueError` on a zero `range` step, so
`chunk_size = 0` is mapped to the empty work list. -/
def make_work_items (chunk_size : ℕ) (ids : List ℤ) : List (List ℤ) :=
  if h : chunk_size = 0 ∨ ids = [] then []
  else ids.take chunk_size :: make_work_items chunk_size (ids.drop chunk_size)
termination_by ids.length
decreasing_by
  push_neg at h
  have h1 : ids.length ≠ 0 := fun hlen => h.2 (List.length_eq_zero.mp hlen)
  simp only [List.length_drop]
  omega

lemma make_work_items_join_aux (cs : ℕ) (hcs : 1 ≤ cs) :
    ∀ n (ids : List ℤ), ids.length ≤ n → (make_work_items cs ids).flatten = ids := by
  intro n
  induction n with
  | zero =>
    intro ids h
    have hids : ids = [] := List.length_eq_zero.mp (by omega)
    rw [hids, make_work_items]
    simp
  | succ n ih =>
    intro ids h
    by_cases hids : ids = []
    · rw [hids, make_work_items]; simp
    · rw [make_work_items, dif_neg (by push_neg; exact ⟨by omega, hids⟩)]
      rw [List.flatten_cons]
      rw [ih (ids.drop cs)
        (by
          simp only [List.length_drop]
          have := List.length_pos.mpr hids
          omega)]
      exact List.take_append_drop cs ids

lemma make_work_items_join (cs : ℕ) (hcs : 1 ≤ cs) (ids : List ℤ) :
    (make_work_items cs ids).flatten = ids :=
  make_work_items_join_aux cs hcs ids.length ids le_rfl

lemma make_work_items_mem_aux (cs : ℕ) (hcs : 1 ≤ cs) :
    ∀ n (ids : List ℤ), ids.length ≤ n →
      ∀ c ∈ make_work_items cs ids, c ≠ [] ∧ c.length ≤ cs ∧ c.Sublist ids := by
  intro n
  induction n with
  | zero =>
    intro ids h c hc
    have hids : ids = [] := List.length_eq_zero.mp (by omega)
    rw [hids, make_work_items] at hc
    simp at hc
  | succ n ih =>
    intro ids h c hc
    by_cases hids : ids = []
    · rw [hids, make_work_items] at hc; simp at hc
    · rw [make_work_items, dif_neg (by push_neg; exact ⟨by omega, hids⟩)] at hc
      rcases List.mem_cons.mp hc with hc | hc
      · subst hc
        refine ⟨?_, ?_, List.take_sublist _ _⟩
        · have := List.length_pos.mpr hids
          intro hnil
          have := congrArg List.length hnil
          simp only [List.length_take, List.length_nil] at this
          omega
        · simp only [List.length_take]
          omega
      · have hrec := ih (ids.drop cs)
          (by
            simp only [List.length_drop]
            have := List.length_pos.mpr hids
            omega) c hc
        exact ⟨hrec.1, hrec.2.1, hrec.2.2.trans (List.drop_sublist _ _)⟩

lemma make_work_items_mem (cs : ℕ) (hcs : 1 ≤ cs) (ids : List ℤ) :
    ∀ c ∈ make_work_items cs ids, c ≠ [] ∧ c.length ≤ cs ∧ c.Sublist ids :=
  make_work_items_mem_aux cs hcs ids.length ids le_rfl

/-- C6: for `chunk_size >= 1` and any identifier list (contiguity is never
used), the work item chunks concatenate back to exactly the input list — no
gaps, no overlaps, order preserved — and every chunk is non-empty with at
most `chunk_size` identifiers. -/
theorem c6_make_work_items_partition (chunk_size : ℕ) (ids : List ℤ)
    (h : 1 ≤ chunk_size) :
    (make_work_items chunk_size ids).flatten = ids ∧
    ∀ c ∈ make_work_items chunk_size ids, c ≠ [] ∧ c.length ≤ chunk_size :=
  ⟨make_work_items_join chunk_size h ids,
   fun c hc => ⟨(make_work_items_mem chunk_size h ids c hc).1,
     (make_work_items_mem chunk_size h ids c hc).2.1⟩⟩

theorem c6_make_work_items_partition_witness :
    1 ≤ 2 ∧
    ((make_work_items 2 [(5 : ℤ), 9, 12]).flatten = [5, 9, 12] ∧
     ∀ c ∈ make_work_items 2 [(5 : ℤ), 9, 12], c ≠ [] ∧ c.length ≤ 2) :=
  ⟨by decide, c6_make_work_items_partition 2 [5, 9, 12] (by decide)⟩

/-- Database model: the table `public.records` is represented by the list of
its `id` values in ascending order (strategies only ever count rows, so the
payload columns are irrelevant). `SELECT ... ORDER BY id LIMIT n` on this
model is `List.take n`. -/
def selectLimit (table : List ℤ) (limit : ℕ) : List ℤ := table.take limit

/-- Model of `SELECT * FROM public.records WHERE id = ANY(chunk) ORDER BY id`:
the table rows whose id occurs in `chunk` (table order is id order). -/
def selectAny (table : List ℤ) (chunk : List ℤ) : List ℤ :=
  table.filter (fun i => decide (i ∈ chunk))

/-- Model of the keyset-pagination predicate
`($1::bigint IS NULL OR id > $1)` from `_stream_concurrent`
(`src/strategies/async_stream.py`). -/
def predGt : Option ℤ → ℤ → Bool
  | none, _ => true
  | some l, i => decide (l < i)

/-- Model of
`SELECT id FROM public.records WHERE ($1 IS NULL OR id > $1) ORDER BY id LIMIT w`. -/
def selectGt (table : List ℤ) (last_id : Option ℤ) (w : ℕ) : List ℤ :=
  (table.filter (predGt last_id)).take w

/-- The `fetchmany`/cursor-batch loop shared by the cursor-pagination,
pooled-sync, async and multiprocessing-worker code: repeatedly fetch up to
`batch` rows, stop on an empty batch, return the total count fetched.
`fetchmany(0)` returns an empty list, so `batch = 0` yields count 0. -/
def fetchLoop (batch : ℕ) (rows : List ℤ) : ℕ :=
  if h : batch = 0 ∨ rows = [] then 0
  else (rows.take batch).length + fetchLoop batch (rows.drop batch)
termination_by rows.length
decreasing_by
  push_neg at h
  have h1 : rows.length ≠ 0 := fun hlen => h.2 (List.length_eq_zero.mp hlen)
  simp only [List.length_drop]
  omega

/-- The per-run outcome fields of `execute` that claim C1 is about: the
`rows` count and the `error` field of the returned `StrategyResult`. -/
structure ExecOutcome where
  rows : ℕ
  error : Option String
deriving Repr, DecidableEq

/-- Embeds `NaiveStrategy.execute` (`src/strategies/naive.py`): one
`SELECT * ... ORDER BY id LIMIT limit`, `fetchall`, count with `len`.
No `error` key is set. -/
def naive_execute (table : List ℤ) (limit : ℕ) : ExecOutcome :=
  ⟨(selectLimit table limit).length, none⟩

/-- Embeds `CursorPaginationStrategy.execute`
(`src/strategies/cursor_pagination.py`): server-side cursor over the bounded
query, counted through `_batched_fetch` (`fetchmany(batch_size)` until
empty). No `error` key is set. -/
def cursor_pagination_execute (batch : ℕ) (table : List ℤ) (limit : ℕ) : ExecOutcome :=
  ⟨fetchLoop batch (selectLimit table limit), none⟩

/-- Embeds `PooledSyncStrategy.execute` (`src/strategies/pooled_sync.py`):
identical counting loop to cursor pagination, on a pooled connection.
No `error` key is set. -/
def pooled_sync_execute (batch : ℕ) (table : List ℤ) (limit : ℕ) : ExecOutcome :=
  ⟨fetchLoop batch (selectLimit table limit), none⟩

/-- Embeds the worker `_fetch_ids` (`src/strategies/multiprocessing.py`):
an empty id list returns `(0, None)`; otherwise the worker streams the rows
matching `WHERE id = ANY(chunk)` via `fetchmany(10_000)`. The database model
is fault-free, so the exception branch returning an error message is never
taken. -/
def mp_fetch_ids (table : List ℤ) (chunk : List ℤ) : ℕ × Option String :=
  if chunk = [] then (0, none)
  else (fetchLoop 10000 (selectAny table chunk), none)

/-- Embeds `MultiprocessingStrategy.execute`
(`src/strategies/multiprocessing.py`): select the ordered id list bounded by
`limit`; if empty return a zero-row result with `error=None`; otherwise chunk
the ids with `_make_work_items`, run `_fetch_ids` on every chunk
(`pool.map` preserves order), sum the counts of error-free workers and join
the first three error messages (if any) into the `error` field. -/
def mp_execute (chunk_size : ℕ) (table : List ℤ) (limit : ℕ) : ExecOutcome :=
  let ids := selectLimit table limit
  if ids = [] then ⟨0, none⟩
  else
    let results := (make_work_items chunk_size ids).map (mp_fetch_ids table)
    let rows_read := ((results.filter (fun r => r.2.isNone)).map Prod.fst).sum
    let errors := results.filterMap Prod.snd
    ⟨rows_read, if errors = [] then none else some (String.intercalate "; " (errors.take 3))⟩

/-- Embeds `AsyncStreamStrategy._stream` (`src/strategies/async_stream.py`):
one streaming cursor over the bounded query, fetched in `batch`-sized
chunks. -/
def stream_rows (batch : ℕ) (table : List ℤ) (limit : ℕ) : ℕ :=
  fetchLoop batch (selectLimit table limit)

/-- Embeds the `fetch_range` closure of `_stream_concurrent`: slice
`ids[start_idx:end_idx]`, return 0 for an empty slice, otherwise stream the
rows matching `WHERE id = ANY(chunk)` in `batch`-sized fetches. -/
def fetch_range (batch : ℕ) (table ids : List ℤ) (r : ℕ × ℕ) : ℕ :=
  if (ids.drop r.1).take (r.2 - r.1) = [] then 0
  else fetchLoop batch (selectAny table ((ids.drop r.1).take (r.2 - r.1)))

/-- Embeds the `process_selected_ids` closure of `_stream_concurrent`:
0 for no ids, otherwise fan out one `fetch_range` task per range of
`_split_limit_ranges(len(ids), effective_concurrency)` and sum the counts
(`asyncio.gather` keeps the argument order). -/
def process_selected_ids (batch eff : ℕ) (table ids : List ℤ) : ℕ :=
  if ids = [] then 0
  else ((split_limit_ranges ids.length eff).map (fetch_range batch table ids)).sum

/-- Embeds the windowed guardrail loop of `_stream_concurrent` for large
limits: select up to `min(20_000, remaining)` ids past the keyset cursor,
stop on an empty window, otherwise process the window, subtract its size
from `remaining` and advance the cursor to the window's last id. -/
def window_loop (batch eff : ℕ) (table : List ℤ) (remaining : ℕ)
    (last_id : Option ℤ) : ℕ :=
  if hr : remaining = 0 then 0
  else if hw : selectGt table last_id (min 20000 remaining) = [] then 0
  else
    process_selected_ids batch eff table (selectGt table last_id (min 20000 remaining)) +
      window_loop batch eff table
        (remaining - (selectGt table last_id (min 20000 remaining)).length)
        (some ((selectGt table last_id (min 20000 remaining)).getLast hw))
termination_by remaining
decreasing_by
  have h1 : 0 < (selectGt table last_id (min 20000 remaining)).length :=
    List.length_pos.mpr hw
  omega

/-- Embeds `AsyncStreamStrategy._stream_concurrent`
(`src/strategies/async_stream.py`): 0 for `limit <= 0`; fall back to the
single-cursor stream when the effective concurrency is 1; select all ids in
one round trip for limits up to the 50_000 threshold; otherwise run the
keyset-windowed loop. -/
def stream_concurrent (batch conc : ℕ) (table : List ℤ) (limit : ℕ) : ℕ :=
  if limit = 0 then 0
  else if max 1 (min conc limit) ≤ 1 then stream_rows batch table limit
  else if limit ≤ 50000 then
    process_selected_ids batch (max 1 (min conc limit)) table (selectLimit table limit)
  else window_loop batch (max 1 (min conc limit)) table limit none

/-- Embeds the row-count behaviour of `AsyncStreamStrategy.execute` when no
event loop is running: `asyncio.run(_stream_concurrent)` when
`concurrency > 1`, else `asyncio.run(_stream)`. No `error` key is set. -/
def async_stream_execute (batch conc : ℕ) (table : List ℤ) (limit : ℕ) : ExecOutcome :=
  ⟨if 1 < conc then stream_concurrent batch conc table limit
   else stream_rows batch table limit, none⟩

lemma fetchLoop_eq_length_aux (batch : ℕ) (hb : 1 ≤ batch) :
    ∀ n (rows : List ℤ), rows.length ≤ n → fetchLoop batch rows = rows.length := by
  intro n
  induction n with
  | zero =>
    intro rows h
    have hrows : rows = [] := List.length_eq_zero.mp (by omega)
    rw [hrows, fetchLoop]
    simp
  | succ n ih =>
    intro rows h
    by_cases hrows : rows = []
    · rw [hrows, fetchLoop]; simp
    · rw [fetchLoop, dif_neg (by push_neg; exact ⟨by omega, hrows⟩)]
      rw [ih (rows.drop batch)
        (by
          simp only [List.length_drop]
          have := List.length_pos.mpr hrows
          omega)]
      simp only [List.length_take, List.length_drop]
      omega

/-- With a positive batch size the fetch loop counts every row of the result
set exactly once. -/
lemma fetchLoop_eq_length (batch : ℕ) (hb : 1 ≤ batch) (rows : List ℤ) :
    fetchLoop batch rows = rows.length :=
  fetchLoop_eq_length_aux batch hb rows.length rows le_rfl

/-- Counting the rows of a duplicate-free table whose id is in a
duplicate-free chunk of table ids yields exactly the chunk size: `id = ANY`
matches each selected id once. -/
lemma selectAny_length (table chunk : List ℤ) (htn : table.Nodup)
    (hcn : chunk.Nodup) (hsub : ∀ x ∈ chunk, x ∈ table) :
    (selectAny table chunk).length = chunk.length := by
  have hfn : (selectAny table chunk).Nodup := htn.filter _
  have hmem : ∀ x, x ∈ selectAny table chunk ↔ x ∈ chunk := by
    intro x
    rw [selectAny, List.mem_filter]
    simp only [decide_eq_true_eq]
    exact ⟨fun h => h.2, fun h => ⟨hsub x h, h⟩⟩
  have hfin : (selectAny table chunk).toFinset = chunk.toFinset := by
    ext x
    simp only [List.mem_toFinset]
    exact hmem x
  calc (selectAny table chunk).length
      = (selectAny table chunk).toFinset.card := (List.toFinset_card_of_nodup hfn).symm
    _ = chunk.toFinset.card := by rw [hfin]
    _ = chunk.length := List.toFinset_card_of_nodup hcn

/-- A worker counting `WHERE id = ANY(chunk)` rows in batches returns the
chunk length, for any chunk extracted from the (duplicate-free) table. -/
lemma count_any_chunk (batch : ℕ) (hb : 1 ≤ batch) (table chunk : List ℤ)
    (htn : table.Nodup) (hchunk : chunk.Sublist table) :
    fetchLoop batch (selectAny table chunk) = chunk.length := by
  rw [fetchLoop_eq_length batch hb]
  exact selectAny_length table chunk htn (hchunk.nodup htn) (fun x hx => hchunk.subset hx)

lemma fetch_range_eq_min (batch : ℕ) (hb : 1 ≤ batch) (table ids : List ℤ)
    (htn : table.Nodup) (hids : ids.Sublist table) (r : ℕ × ℕ) :
    fetch_range batch table ids r = min (r.2 - r.1) (ids.length - r.1) := by
  rw [fetch_range]
  have hclen : ((ids.drop r.1).take (r.2 - r.1)).length =
      min (r.2 - r.1) (ids.length - r.1) := by
    simp [List.length_take, List.length_drop]
  by_cases hc : (ids.drop r.1).take (r.2 - r.1) = []
  · rw [if_pos hc]
    rw [hc] at hclen
    simpa using hclen
  · rw [if_neg hc]
    rw [count_any_chunk batch hb table _ htn
      (((ids.drop r.1).take_sublist (r.2 - r.1)).trans (ids.drop_sublist r.1) |>.trans hids)]
    exact hclen

/-- The concurrent fan-out over `_split_limit_ranges` counts each selected id
exactly once. -/
lemma process_selected_ids_count (batch eff : ℕ) (hb : 1 ≤ batch)
    (table ids : List ℤ) (htn : table.Nodup) (hids : ids.Sublist table) :
    process_selected_ids batch eff table ids = ids.length := by
  by_cases h : ids = []
  · subst h; simp [process_selected_ids]
  · rw [process_selected_ids, if_neg h]
    have hmap : ((split_limit_ranges ids.length eff).map (fetch_range batch table ids)) =
        ((split_limit_ranges ids.length eff).map
          (fun r => min (r.2 - r.1) (ids.length - r.1))) :=
      List.map_congr_left (fun r _ => fetch_range_eq_min batch hb table ids htn hids r)
    rw [hmap, split_limit_ranges_slice_sum]
    omega

/-- In a strictly sorted table, the keyset predicate `id > table.get j`
selects exactly the rows after position `j`. -/
lemma sorted_filter_gt_get (table : List ℤ) (hs : table.Sorted (· < ·))
    (j : Fin table.length) :
    table.filter (fun i => decide (table.get j < i)) = table.drop ((j : ℕ) + 1) := by
  have hsplit : table.filter (fun i => decide (table.get j < i)) =
      (table.take ((j : ℕ) + 1)).filter (fun i => decide (table.get j < i)) ++
        (table.drop ((j : ℕ) + 1)).filter (fun i => decide (table.get j < i)) := by
    rw [← List.filter_append, List.take_append_drop]
  have h1 : (table.take ((j : ℕ) + 1)).filter (fun i => decide (table.get j < i)) = [] := by
    rw [List.filter_eq_nil_iff]
    intro a ha
    obtain ⟨i, hi⟩ := List.mem_iff_get.mp ha
    have hilt : (i : ℕ) < (j : ℕ) + 1 := by
      have := i.isLt
      simp only [List.length_take] at this
      omega
    have hiN : (i : ℕ) < table.length := by
      have := i.isLt
      simp only [List.length_take] at this
      omega
    have hval : a = table.get ⟨i, hiN⟩ := by
      rw [← hi, List.get_eq_getElem, List.get_eq_getElem]
      exact List.getElem_take table
    have hle : a ≤ table.get j := by
      rcases Nat.lt_or_ge (i : ℕ) (j : ℕ) with hij | hij
      · have := hs.rel_get_of_lt (show (⟨(i : ℕ), hiN⟩ : Fin table.length) < j from hij)
        rw [hval]; exact le_of_lt this
      · have : (i : ℕ) = (j : ℕ) := by omega
        rw [hval]
        have : (⟨(i : ℕ), hiN⟩ : Fin table.length) = j := Fin.ext this
        rw [this]
    simp only [decide_eq_true_eq]
    intro hcontra
    exact absurd hcontra (by simpa using not_lt.mpr hle)
  have h2 : (table.drop ((j : ℕ) + 1)).filter (fun i => decide (table.get j < i)) =
      table.drop ((j : ℕ) + 1) := by
    rw [List.filter_eq_self]
    intro a ha
    obtain ⟨i, hi⟩ := List.mem_iff_get.mp ha
    have hiN : (j : ℕ) + 1 + (i : ℕ) < table.length := by
      have := i.isLt
      simp only [List.length_drop] at this
      omega
    have hval : a = table.get ⟨(j : ℕ) + 1 + (i : ℕ), hiN⟩ := by
      rw [← hi, List.get_eq_getElem, List.get_eq_getElem]
      exact List.getElem_drop table
    have hlt : table.get j < a := by
      rw [hval]
      exact hs.rel_get_of_lt (show j < (⟨(j : ℕ) + 1 + (i : ℕ), hiN⟩ : Fin table.length) from
        Fin.lt_def.mpr (by simp only [Fin.val_mk]; omega))
    simp only [decide_eq_true_eq]
    simpa using hlt
  rw [hsplit, h1, h2, List.nil_append]

/-- Invariant-carrying correctness of the keyset-windowed loop: if the
current keyset state selects exactly the table rows after position `k`, the
loop reads `min remaining (table.length - k)` further rows. -/
lemma window_loop_count (batch eff : ℕ) (hb : 1 ≤ batch) (table : List ℤ)
    (hs : table.Sorted (· < ·)) :
    ∀ remaining (last_id : Option ℤ) (k : ℕ),
      table.filter (predGt last_id) = table.drop k →
      window_loop batch eff table remaining last_id =
        min remaining (table.length - k) := by
  intro remaining
  induction remaining using Nat.strong_induction_on with
  | _ remaining ih =>
    intro last_id k H
    by_cases hr : remaining = 0
    · subst hr
      rw [window_loop]
      simp
    · have hwin : selectGt table last_id (min 20000 remaining) =
          (table.drop k).take (min 20000 remaining) := by
        rw [selectGt, H]
      by_cases hw : selectGt table last_id (min 20000 remaining) = []
      · rw [window_loop, dif_neg hr, dif_pos hw]
        rw [hwin] at hw
        have hdrop : table.drop k = [] := by
          rcases List.take_eq_nil_iff.mp hw with h | h
          · omega
          · exact h
        have hlen : table.length ≤ k := by
          have := congrArg List.length hdrop
          simp only [List.length_drop, List.length_nil] at this
          omega
        omega
      · rw [window_loop, dif_neg hr, dif_neg hw]
        have hlen : (selectGt table last_id (min 20000 remaining)).length =
            min (min 20000 remaining) (table.length - k) := by
          rw [hwin]
          simp [List.length_take, List.length_drop]
        have hwlenpos : 0 < (selectGt table last_id (min 20000 remaining)).length :=
          List.length_pos.mpr hw
        have hsub : (selectGt table last_id (min 20000 remaining)).Sublist table := by
          rw [hwin]
          exact ((table.drop k).take_sublist _).trans (table.drop_sublist k)
        have hproc := process_selected_ids_count batch eff hb table _ hs.nodup hsub
        rw [hproc]
        have hkN : k + (selectGt table last_id (min 20000 remaining)).length ≤
            table.length := by omega
        have hjlt : k + (selectGt table last_id (min 20000 remaining)).length - 1 <
            table.length := by omega
        have hlast : (selectGt table last_id (min 20000 remaining)).getLast hw =
            table.get ⟨k + (selectGt table last_id (min 20000 remaining)).length - 1,
              hjlt⟩ := by
          rw [List.getLast_eq_get, List.get_of_eq hwin, List.get_eq_getElem,
            List.get_eq_getElem, List.getElem_take, List.getElem_drop]
          simp only [Fin.coe_cast, Fin.val_mk]
          congr 1
          omega
        have Hnew : table.filter (predGt (some (table.get
            ⟨k + (selectGt table last_id (min 20000 remaining)).length - 1, hjlt⟩))) =
            table.drop (k + (selectGt table last_id (min 20000 remaining)).length) := by
          have hfg := sorted_filter_gt_get table hs
            ⟨k + (selectGt table last_id (min 20000 remaining)).length - 1, hjlt⟩
          rw [show (((⟨k + (selectGt table last_id (min 20000 remaining)).length - 1,
              hjlt⟩ : Fin table.length) : ℕ) + 1) =
              k + (selectGt table last_id (min 20000 remaining)).length by
            simp only [Fin.val_mk]
            omega] at hfg
          exact hfg
        rw [hlast, ih _ (by omega) _ _ Hnew]
        omega

lemma stream_concurrent_count (batch conc : ℕ) (hb : 1 ≤ batch) (table : List ℤ)
    (hs : table.Sorted (· < ·)) (limit : ℕ) :
    stream_concurrent batch conc table limit = min limit table.length := by
  rw [stream_concurrent]
  by_cases hl : limit = 0
  · rw [if_pos hl]
    omega
  · rw [if_neg hl]
    by_cases he : max 1 (min conc limit) ≤ 1
    · rw [if_pos he, stream_rows, fetchLoop_eq_length batch hb, selectLimit,
        List.length_take]
    · rw [if_neg he]
      by_cases hth : limit ≤ 50000
      · rw [if_pos hth]
        have := process_selected_ids_count batch (max 1 (min conc limit)) hb table
          (selectLimit table limit) hs.nodup (table.take_sublist limit)
        rw [this, selectLimit, List.length_take]
      · rw [if_neg hth]
        have H0 : table.filter (predGt none) = table.drop 0 := by
          simp [predGt]
        rw [window_loop_count batch _ hb table hs limit none 0 H0]
        omega

lemma mp_execute_spec (chunk_size : ℕ) (hcs : 1 ≤ chunk_size) (table : List ℤ)
    (hs : table.Sorted (· < ·)) (limit : ℕ) :
    mp_execute chunk_size table limit = ⟨min limit table.length, none⟩ := by
  rw [mp_execute]
  simp only [selectLimit]
  by_cases hids : table.take limit = []
  · rw [if_pos hids]
    have hlen := congrArg List.length hids
    simp only [List.length_take, List.length_nil] at hlen
    have : min limit table.length = 0 := by omega
    rw [this]
  · rw [if_neg hids]
    have hworker : ∀ c ∈ make_work_items chunk_size (table.take limit),
        mp_fetch_ids table c = (c.length, none) := by
      intro c hc
      obtain ⟨hne, hlen, hsubl⟩ := make_work_items_mem chunk_size hcs (table.take limit) c hc
      rw [mp_fetch_ids, if_neg hne,
        count_any_chunk 10000 (by omega) table c hs.nodup
          (hsubl.trans (table.take_sublist limit))]
    have hres : (make_work_items chunk_size (table.take limit)).map (mp_fetch_ids table) =
        (make_work_items chunk_size (table.take limit)).map
          (fun c => ((c.length : ℕ), (none : Option String))) :=
      List.map_congr_left hworker
    rw [hres]
    have hfilter : ((make_work_items chunk_size (table.take limit)).map
          (fun c => ((c.length : ℕ), (none : Option String)))).filter
          (fun r => r.2.isNone) =
        (make_work_items chunk_size (table.take limit)).map
          (fun c => ((c.length : ℕ), (none : Option String))) := by
      rw [List.filter_eq_self]
      intro r hr
      obtain ⟨c, hc, hrc⟩ := List.mem_map.mp hr
      rw [← hrc]
      rfl
    rw [hfilter, List.map_map]
    have hsum : ((make_work_items chunk_size (table.take limit)).map
        (Prod.fst ∘ fun c => ((c.length : ℕ), (none : Option String)))).sum =
        min limit table.length := by
      have h1 : (Prod.fst ∘ fun c : List ℤ => ((c.length : ℕ), (none : Option String))) =
          List.length := rfl
      rw [h1, ← List.length_flatten,
        make_work_items_join chunk_size hcs (table.take limit), List.length_take]
    rw [hsum]
    have herr : ((make_work_items chunk_size (table.take limit)).map
        (fun c => ((c.length : ℕ), (none : Option String)))).filterMap Prod.snd = [] := by
      simp [List.filterMap_map]
    rw [herr]
    simp

lemma async_stream_execute_spec (batch conc : ℕ) (hb : 1 ≤ batch) (table : List ℤ)
    (hs : table.Sorted (· < ·)) (limit : ℕ) :
    async_stream_execute batch conc table limit = ⟨min limit table.length, none⟩ := by
  rw [async_stream_execute]
  by_cases hc : 1 < conc
  · rw [if_pos hc, stream_concurrent_count batch conc hb table hs]
  · rw [if_neg hc, stream_rows, fetchLoop_eq_length batch hb, selectLimit,
      List.length_take]

/-- C1: with a strictly id-sorted table, a positive fetch batch size and a
positive multiprocessing chunk size, every strategy's `execute(limit)`
reports `rows = min limit (total available rows)` — so `rows = limit`
whenever enough rows exist, the full table size when `limit` exceeds it, and
0 for an empty table — and the `error` field of every strategy result is
`None` (in particular on an empty table). -/
theorem c1_all_strategies_rows_min (table : List ℤ) (limit batch chunk_size conc : ℕ)
    (hs : List.Sorted (· < ·) table) (hb : 1 ≤ batch) (hcs : 1 ≤ chunk_size) :
    (naive_execute table limit).rows = min limit table.length ∧
    (naive_execute table limit).error = none ∧
    (cursor_pagination_execute batch table limit).rows = min limit table.length ∧
    (cursor_pagination_execute batch table limit).error = none ∧
    (pooled_sync_execute batch table limit).rows = min limit table.length ∧
    (pooled_sync_execute batch table limit).error = none ∧
    (mp_execute chunk_size table limit).rows = min limit table.length ∧
    (mp_execute chunk_size table limit).error = none ∧
    (async_stream_execute batch conc table limit).rows = min limit table.length ∧
    (async_stream_execute batch conc table limit).error = none := by
  refine ⟨?_, rfl, ?_, rfl, ?_, rfl, ?_, ?_, ?_, ?_⟩
  · rw [naive_execute, selectLimit, List.length_take]
  · show fetchLoop batch (selectLimit table limit) = min limit table.length
    rw [fetchLoop_eq_length batch hb, selectLimit, List.length_take]
  · show fetchLoop batch (selectLimit table limit) = min limit table.length
    rw [fetchLoop_eq_length batch hb, selectLimit, List.length_take]
  · rw [mp_execute_spec chunk_size hcs table hs limit]
  · rw [mp_execute_spec chunk_size hcs table hs limit]
  · rw [async_stream_execute_spec batch conc hb table hs limit]
  · rw [async_stream_execute_spec batch conc hb table hs limit]

theorem c1_all_strategies_rows_min_witness :
    (List.Sorted (· < ·) [(3 : ℤ), 7, 9] ∧ 1 ≤ 1 ∧ 1 ≤ 1) ∧
    ((naive_execute [(3 : ℤ), 7, 9] 2).rows = min 2 [(3 : ℤ), 7, 9].length ∧
     (naive_execute [(3 : ℤ), 7, 9] 2).error = none ∧
     (cursor_pagination_execute 1 [(3 : ℤ), 7, 9] 2).rows = min 2 [(3 : ℤ), 7, 9].length ∧
     (cursor_pagination_execute 1 [(3 : ℤ), 7, 9] 2).error = none ∧
     (pooled_sync_execute 1 [(3 : ℤ), 7, 9] 2).rows = min 2 [(3 : ℤ), 7, 9].length ∧
     (pooled_sync_execute 1 [(3 : ℤ), 7, 9] 2).error = none ∧
     (mp_execute 1 [(3 : ℤ), 7, 9] 2).rows = min 2 [(3 : ℤ), 7, 9].length ∧
     (mp_execute 1 [(3 : ℤ), 7, 9] 2).error = none ∧
     (async_stream_execute 1 2 [(3 : ℤ), 7, 9] 2).rows = min 2 [(3 : ℤ), 7, 9].length ∧
     (async_stream_execute 1 2 [(3 : ℤ), 7, 9] 2).error = none) :=
  ⟨⟨by decide, le_rfl, le_rfl⟩,
   c1_all_strategies_rows_min [(3 : ℤ), 7, 9] 2 1 1 2 (by decide) le_rfl le_rfl⟩

/-- Does `pat` lead (start) the character list `s`? -/
def leadsChars : List Char → List Char → Bool
  | [], _ => true
  | _ :: _, [] => false
  | a :: pa, b :: sb => a == b && leadsChars pa sb

/-- Does `pat` occur contiguously anywhere in the character list? -/
def occursInChars (pat : List Char) : List Char → Bool
  | [] => leadsChars pat []
  | b :: rest => leadsChars pat (b :: rest) || occursInChars pat rest

/-- Python's `pat in s` on strings: contiguous substring test. -/
def strOccursIn (pat s : String) : Bool :=
  occursInChars pat.toList s.toList

/-- Python's `str.lower()` (character-wise, sufficient for the ASCII error
messages involved). -/
def lowerStr (s : String) : String :=
  String.mk (s.toList.map Char.toLower)

/-- The error message raised by `AsyncStreamStrategy.execute` when it detects
a running event loop (`src/strategies/async_stream.py`). -/
def execute_async_context_msg : String :=
  "AsyncStreamStrategy.execute() called from async context. Use execute_async() instead or call from synchronous code."

/-- The message of the `RuntimeError` raised by `asyncio.get_running_loop()`
when no loop is running. -/
def no_running_loop_msg : String := "no running event loop"

/-- Model of `asyncio.get_running_loop()`: succeeds exactly when a
cooperative event loop is already running in the calling thread. -/
def get_running_loop (loopRunning : Bool) : Except String Unit :=
  if loopRunning then Except.ok () else Except.error no_running_loop_msg

/-- Embeds the guard logic of `AsyncStreamStrategy.execute`
(`src/strategies/async_stream.py`): probe for a running loop; if one is
running, raise the context-misuse `RuntimeError`; either way the
`except RuntimeError` handler receives a message and checks it for
`"no running event loop"` (lower-cased): a match means no loop was running,
so `asyncio.run` starts a fresh loop and drives the streaming logic to
completion; otherwise the context-misuse error is re-raised. The second
component counts how many event loops `asyncio.run` created. -/
def async_execute_with_guard (loopRunning : Bool) (batch conc : ℕ) (table : List ℤ)
    (limit : ℕ) : Except String ExecOutcome × ℕ :=
  let e := match get_running_loop loopRunning with
    | Except.ok _ => execute_async_context_msg
    | Except.error msg => msg
  if strOccursIn no_running_loop_msg (lowerStr e) then
    (Except.ok (async_stream_execute batch conc table limit), 1)
  else (Except.error e, 0)

/-- C8: calling `execute(limit)` while a cooperative event loop is running
raises the context-misuse `RuntimeError` immediately — zero event loops are
started — and its message names `execute_async`; with no loop running,
`execute` does not raise, creating exactly one loop of its own and driving
the streaming logic (`async_stream_execute`) to completion. -/
theorem c8_execute_event_loop_guard (batch conc : ℕ) (table : List ℤ) (limit : ℕ) :
    (async_execute_with_guard true batch conc table limit =
        (Except.error execute_async_context_msg, 0) ∧
      strOccursIn "execute_async" execute_async_context_msg = true) ∧
    async_execute_with_guard false batch conc table limit =
      (Except.ok (async_stream_execute batch conc table limit), 1) := by
  refine ⟨⟨?_, by decide⟩, ?_⟩
  · have hcond : strOccursIn no_running_loop_msg (lowerStr execute_async_context_msg) =
        false := by decide
    simp [async_execute_with_guard, get_running_loop, hcond]
  · have hcond : strOccursIn no_running_loop_msg (lowerStr no_running_loop_msg) = true := by
      decide
    simp [async_execute_with_guard, get_running_loop, hcond]

/-- Embeds `_capture_cpu_percent` (`src/utils/profiler.py`): the parent's
user+system CPU-time delta plus the accumulated child CPU time, divided by
the wall-clock duration, times 100; 0 when the duration is not positive. -/
def capture_cpu_percent (startUser startSystem endUser endSystem childCpu duration : ℚ) :
    ℚ :=
  if 0 < duration then
    (((endUser - startUser) + (endSystem - startSystem)) + childCpu) / duration * 100
  else 0

/-- Embeds the `finally` block of `profile_block` (`src/utils/profiler.py`):
set `end_ts`, compute `duration_seconds = end_ts - start_ts`, record the
sampled peak RSS (`None` when the sampler saw nothing positive), the
CPU percent from the recorded CPU times, and the tracemalloc peak. -/
def profile_block_finalize (label : String) (start_ts end_ts : ℚ) (sampledPeakRss : ℤ)
    (startUser startSystem endUser endSystem childCpu : ℚ) (peakTraced : Option ℤ) :
    ProfileStats :=
  { label := label
    start_ts := start_ts
    end_ts := end_ts
    duration_seconds := end_ts - start_ts
    peak_rss_bytes := if 0 < sampledPeakRss then some sampledPeakRss else none
    peak_traced_bytes := peakTraced
    cpu_percent := some (capture_cpu_percent startUser startSystem endUser endSystem
      childCpu (end_ts - start_ts)) }

/-- Embeds the control flow of `profile_block` around the profiled block:
whatever the block's outcome (normal return or exception), the `finally`
block finalizes the stats record, and the outcome itself is passed through
unchanged. `start_ts` and `end_ts` are successive readings of the monotonic
`perf_counter` clock. -/
def profile_block_run {α : Type} (outcome : Except String α) (label : String)
    (start_ts end_ts : ℚ) (sampledPeakRss : ℤ)
    (startUser startSystem endUser endSystem childCpu : ℚ) (peakTraced : Option ℤ) :
    ProfileStats × Except String α :=
  (profile_block_finalize label start_ts end_ts sampledPeakRss startUser startSystem
    endUser endSystem childCpu peakTraced, outcome)

/-- C9: for every outcome of the profiled block — including an exception —
the exit path finalizes the stats record: `end_ts` is set, the duration is
`end_ts - start_ts` and is non-negative (the clock is monotonic), peak RSS
and CPU percent are captured exactly as the finalizer computes them, and the
block's outcome (in particular its exception) propagates unchanged. -/
theorem c9_profile_block_finalizes_on_exception {α : Type} (outcome : Except String α)
    (label : String) (start_ts end_ts : ℚ) (sampledPeakRss : ℤ)
    (startUser startSystem endUser endSystem childCpu : ℚ) (peakTraced : Option ℤ)
    (hmono : start_ts ≤ end_ts) :
    (profile_block_run outcome label start_ts end_ts sampledPeakRss startUser startSystem
        endUser endSystem childCpu peakTraced).2 = outcome ∧
    (profile_block_run outcome label start_ts end_ts sampledPeakRss startUser startSystem
        endUser endSystem childCpu peakTraced).1.end_ts = end_ts ∧
    (profile_block_run outcome label start_ts end_ts sampledPeakRss startUser startSystem
        endUser endSystem childCpu peakTraced).1.duration_seconds = end_ts - start_ts ∧
    0 ≤ (profile_block_run outcome label start_ts end_ts sampledPeakRss startUser
        startSystem endUser endSystem childCpu peakTraced).1.duration_seconds ∧
    (profile_block_run outcome label start_ts end_ts sampledPeakRss startUser startSystem
        endUser endSystem childCpu peakTraced).1.peak_rss_bytes =
      (if 0 < sampledPeakRss then some sampledPeakRss else none) ∧
    (profile_block_run outcome label start_ts end_ts sampledPeakRss startUser startSystem
        endUser endSystem childCpu peakTraced).1.cpu_percent =
      some (capture_cpu_percent startUser startSystem endUser endSystem childCpu
        (end_ts - start_ts)) := by
  refine ⟨rfl, rfl, rfl, ?_, rfl, rfl⟩
  show (0 : ℚ) ≤ end_ts - start_ts
  linarith

theorem c9_profile_block_finalizes_on_exception_witness :
    (1 : ℚ) ≤ 3 ∧
    ((profile_block_run (Except.error "boom" : Except String Unit) "naive" 1 3 55 0 0 1 1 0 (some 7)).2 =
        Except.error "boom" ∧
      (profile_block_run (Except.error "boom" : Except String Unit) "naive" 1 3 55 0 0 1 1 0
        (some 7)).1.end_ts = 3 ∧
      (profile_block_run (Except.error "boom" : Except String Unit) "naive" 1 3 55 0 0 1 1 0
        (some 7)).1.duration_seconds = 3 - 1 ∧
      0 ≤ (profile_block_run (Except.error "boom" : Except String Unit) "naive" 1 3 55 0 0 1 1 0
        (some 7)).1.duration_seconds ∧
      (profile_block_run (Except.error "boom" : Except String Unit) "naive" 1 3 55 0 0 1 1 0
        (some 7)).1.peak_rss_bytes = (if (0 : ℤ) < 55 then some 55 else none) ∧
      (profile_block_run (Except.error "boom" : Except String Unit) "naive" 1 3 55 0 0 1 1 0
        (some 7)).1.cpu_percent = some (capture_cpu_percent 0 0 1 1 0 (3 - 1))) :=
  ⟨by norm_num,
   c9_profile_block_finalizes_on_exception (Except.error "boom" : Except String Unit) "naive" 1 3 55 0 0 1 1 0
     (some 7) (by norm_num)⟩

/-- The orchestrator's failure policy (`FailurePolicy` in
`src/orchestrator.py`). -/
inductive FailurePolicy where
  | tolerant
  | strict
deriving Repr, DecidableEq

/-- A Python exception as observed by `_profiled_execute`: its class name
(`exc.__class__.__name__`) and its message (`str(exc)`). -/
structure PyExc where
  type_name : String
  msg : String
deriving Repr, DecidableEq

/-- The substituted `failure_result` dictionary built by `_profiled_execute`
in tolerant mode (`src/orchestrator.py`): keys `error`, `rows`,
`duration_seconds`, `notes` and the structured `extra` marker. -/
def failure_result (e : PyExc) : StrategyResult :=
  { rows := some 0
    duration_seconds := some 0
    throughput_rows_per_sec := none
    peak_rss_bytes := none
    cpu_percent := none
    error := some e.msg
    notes := some "Execution failed in tolerant mode; run continued."
    extra := some ⟨true, e.type_name, "tolerant"⟩ }

/-- Embeds `_profiled_execute` (`src/orchestrator.py`): run the strategy
inside a profiling block; on success merge its result with the profiler
stats; on an exception re-raise under the `strict` policy, or merge the
substituted `failure_result` under the `tolerant` policy. The strategy's
behaviour is a value of `Except PyExc StrategyResult` (it either returns a
result or raises). -/
def profiled_execute (behavior : Except PyExc StrategyResult) (policy : FailurePolicy)
    (stats : ProfileStats) : Except PyExc MergedResult :=
  match behavior with
  | Except.ok r => Except.ok (merge_result r stats)
  | Except.error e =>
    match policy with
    | FailurePolicy.strict => Except.error e
    | FailurePolicy.tolerant => Except.ok (merge_result (failure_result e) stats)

/-- One per-run entry of `_run_measurement_runs`: the merged result plus the
`strategy`, `limit` and `run` keys the orchestrator attaches. -/
structure RunEntry where
  merged : MergedResult
  strategy : String
  limit : ℕ
  run : ℕ
deriving Repr, DecidableEq

/-- Embeds the measurement loop of `_run_measurement_runs`
(`src/orchestrator.py`), made explicit as recursion over the remaining run
count. Each iteration instantiates a fresh strategy (identified by its run
number), executes it under the failure policy, and — in a `finally` block —
always invokes the `close()` cleanup hook on that instance. The result is
`(per-run entries, trace of close() invocations in order, propagated
exception if any)`: under `strict` an exception stops the loop right after
the failed instance's cleanup. -/
def run_measurement_runs_go (name : String) (limit : ℕ)
    (behavior : ℕ → Except PyExc StrategyResult) (stats : ℕ → ProfileStats)
    (policy : FailurePolicy) : ℕ → ℕ → List RunEntry × List ℕ × Option PyExc
  | _, 0 => ([], [], none)
  | run_num, rem + 1 =>
    match profiled_execute (behavior run_num) policy (stats run_num) with
    | Except.ok merged =>
      let rest := run_measurement_runs_go name limit behavior stats policy (run_num + 1) rem
      (⟨merged, name, limit, run_num⟩ :: rest.1, run_num :: rest.2.1, rest.2.2)
    | Except.error e => ([], [run_num], some e)

/-- `_run_measurement_runs(name, config, ...)`: run numbers start at 1. -/
def run_measurement_runs (name : String) (limit runs : ℕ)
    (behavior : ℕ → Except PyExc StrategyResult) (stats : ℕ → ProfileStats)
    (policy : FailurePolicy) : List RunEntry × List ℕ × Option PyExc :=
  run_measurement_runs_go name limit behavior stats policy 1 runs

/-- Embeds the per-strategy loop of `run_strategies`
(`src/orchestrator.py`): strategies are processed in order; an exception
propagating out of a strategy's measurement runs aborts the whole
orchestration call, otherwise the per-strategy run results are collected. -/
def run_strategies_model (limit runs : ℕ)
    (behaviors : String → ℕ → Except PyExc StrategyResult)
    (stats : String → ℕ → ProfileStats) (policy : FailurePolicy) :
    List String → Except PyExc (List (List RunEntry))
  | [] => Except.ok []
  | n :: rest =>
    match (run_measurement_runs n limit runs (behaviors n) (stats n) policy).2.2 with
    | some e => Except.error e
    | none =>
      match run_strategies_model limit runs behaviors stats policy rest with
      | Except.error e => Except.error e
      | Except.ok others =>
        Except.ok ((run_measurement_runs n limit runs (behaviors n) (stats n) policy).1
          :: others)

lemma run_measurement_runs_go_tolerant_fail (name : String) (limit : ℕ)
    (e : ℕ → PyExc) (stats : ℕ → ProfileStats) :
    ∀ rem run_num,
      run_measurement_runs_go name limit (fun k => Except.error (e k)) stats
          FailurePolicy.tolerant run_num rem =
        ((List.range rem).map (fun i =>
            ⟨merge_result (failure_result (e (run_num + i))) (stats (run_num + i)),
             name, limit, run_num + i⟩),
         (List.range rem).map (fun i => run_num + i),
         none) := by
  intro rem
  induction rem with
  | zero => intro run_num; rfl
  | succ n ih =>
    intro run_num
    rw [run_measurement_runs_go]
    simp only [profiled_execute]
    rw [ih (run_num + 1)]
    rw [List.range_succ_eq_map]
    simp only [List.map_cons, List.map_map]
    refine congrArg₂ Prod.mk ?_ (congrArg₂ Prod.mk ?_ rfl)
    · simp only [Nat.add_zero]
      refine congrArg₂ List.cons rfl ?_
      apply List.map_congr_left
      intro i _
      simp only [Function.comp_apply]
      have : run_num + (i + 1) = run_num + 1 + i := by omega
      rw [this]
    · simp only [Nat.add_zero]
      refine congrArg₂ List.cons rfl ?_
      apply List.map_congr_left
      intro i _
      simp only [Function.comp_apply]
      omega

/-- C4: under the `tolerant` policy, a strategy whose `execute` always
raises never aborts: every configured measurement run completes and yields a
substituted result with `rows = 0`, `error` set to the exception's message,
the explanatory notes string, and `extra.failed = true`; every instance is
still closed, no exception propagates, and the orchestration proceeds
through all measurement runs and all requested strategies
(`run_strategies_model` returns `ok` with one entry list per strategy). -/
theorem c4_tolerant_policy_substitutes_and_continues (name : String) (limit runs : ℕ)
    (e : ℕ → PyExc) (stats : ℕ → ProfileStats) (names : List String)
    (ee : String → ℕ → PyExc) (stats2 : String → ℕ → ProfileStats) :
    (run_measurement_runs name limit runs (fun k => Except.error (e k)) stats
        FailurePolicy.tolerant).2.2 = none ∧
    (run_measurement_runs name limit runs (fun k => Except.error (e k)) stats
        FailurePolicy.tolerant).1.length = runs ∧
    (run_measurement_runs name limit runs (fun k => Except.error (e k)) stats
        FailurePolicy.tolerant).2.1.length = runs ∧
    (∀ entry ∈ (run_measurement_runs name limit runs (fun k => Except.error (e k)) stats
        FailurePolicy.tolerant).1,
      entry.merged.rows = 0 ∧
      entry.merged.error = some (e entry.run).msg ∧
      entry.merged.notes = some "Execution failed in tolerant mode; run continued." ∧
      entry.merged.extra = some ⟨true, (e entry.run).type_name, "tolerant"⟩) ∧
    (∃ v, run_strategies_model limit runs (fun n k => Except.error (ee n k)) stats2
        FailurePolicy.tolerant names = Except.ok v ∧ v.length = names.length) := by
  have hgo := run_measurement_runs_go_tolerant_fail name limit e stats runs 1
  refine ⟨?_, ?_, ?_, ?_, ?_⟩
  · rw [run_measurement_runs, hgo]
  · rw [run_measurement_runs, hgo]
    simp
  · rw [run_measurement_runs, hgo]
    simp
  · intro entry hentry
    rw [run_measurement_runs, hgo] at hentry
    obtain ⟨i, _, hi⟩ := List.mem_map.mp hentry
    rw [← hi]
    exact ⟨rfl, rfl, rfl, rfl⟩
  · induction names with
    | nil => exact ⟨[], rfl, rfl⟩
    | cons n rest ih =>
      obtain ⟨v, hv, hlen⟩ := ih
      refine ⟨(run_measurement_runs n limit runs (fun k => Except.error (ee n k))
        (stats2 n) FailurePolicy.tolerant).1 :: v, ?_, by simp [hlen]⟩
      rw [run_strategies_model]
      have hnone := (run_measurement_runs_go_tolerant_fail n limit (ee n) (stats2 n)
        runs 1)
      rw [run_measurement_runs, hnone]
      simp only []
      rw [hv]

/-- C5: under the `strict` policy, a strategy whose `execute` raises
propagates the original exception unmodified out of the measurement loop
(and hence out of the orchestration call), after exactly one `close()`
invocation — on the failed instance (run 1) — and with no per-run result
recorded. -/
theorem c5_strict_policy_propagates_after_single_close (name : String)
    (limit runs : ℕ) (hr : 1 ≤ runs) (e : PyExc) (stats : ℕ → ProfileStats)
    (more : List String) (stats2 : String → ℕ → ProfileStats) :
    run_measurement_runs name limit runs (fun _ => Except.error e) stats
      FailurePolicy.strict = ([], [1], some e) ∧
    run_strategies_model limit runs (fun _ _ => Except.error e) stats2
      FailurePolicy.strict (name :: more) = Except.error e := by
  obtain ⟨rem, rfl⟩ : ∃ rem, runs = rem + 1 := ⟨runs - 1, by omega⟩
  constructor
  · rfl
  · rfl

theorem c5_strict_policy_propagates_after_single_close_witness :
    1 ≤ 1 ∧
    (run_measurement_runs "pooled_sync" 5 1
        (fun _ => Except.error ⟨"RuntimeError", "intentional failure"⟩)
        (fun _ => ⟨"pooled_sync", 0, 1, 1, none, none, none⟩)
        FailurePolicy.strict = ([], [1], some ⟨"RuntimeError", "intentional failure"⟩) ∧
      run_strategies_model 5 1
        (fun _ _ => Except.error ⟨"RuntimeError", "intentional failure"⟩)
        (fun _ _ => ⟨"pooled_sync", 0, 1, 1, none, none, none⟩)
        FailurePolicy.strict ["pooled_sync"] =
        Except.error ⟨"RuntimeError", "intentional failure"⟩) :=
  ⟨le_rfl,
   c5_strict_policy_propagates_after_single_close "pooled_sync" 5 1 le_rfl
     ⟨"RuntimeError", "intentional failure"⟩
     (fun _ => ⟨"pooled_sync", 0, 1, 1, none, none, none⟩) []
     (fun _ _ => ⟨"pooled_sync", 0, 1, 1, none, none, none⟩)⟩

/-- Insertion into a sorted list, used to model Python's `sorted`. -/
def insertSorted {α : Type} [LinearOrder α] (x : α) : List α → List α
  | [] => [x]
  | y :: ys => if x ≤ y then x :: y :: ys else y :: insertSorted x ys

/-- Model of Python's `sorted(xs)` (insertion sort; `statistics.median` only
depends on the sorted order). -/
def sortList {α : Type} [LinearOrder α] : List α → List α
  | [] => []
  | x :: xs => insertSorted x (sortList xs)

/-- Embeds `statistics.median`: sort, take the middle element for odd length,
the average of the two middle elements for even length. (Python raises on an
empty list; callers guard against that, the default 0 is unreachable.) -/
def medianQ (xs : List ℚ) : ℚ :=
  if (sortList xs).length % 2 = 1 then (sortList xs).getD ((sortList xs).length / 2) 0
  else ((sortList xs).getD ((sortList xs).length / 2 - 1) 0 +
    (sortList xs).getD ((sortList xs).length / 2) 0) / 2

/-- Embeds `statistics.mean`. -/
def meanQ (xs : List ℚ) : ℚ := xs.sum / (xs.length : ℚ)

/-- The sample variance `sum((x - mean)^2) / (n - 1)`. `statistics.stdev` is
its square root; a rational embedding stores the square (see
`FloatStats.stddevSq`). -/
def varianceQ (xs : List ℚ) : ℚ :=
  ((xs.map (fun x => (x - meanQ xs) ^ 2)).sum) / ((xs.length : ℚ) - 1)

/-- One statistics block of `_aggregate_runs` for float-valued metrics, after
`_round_stats`. `stddevSq` records the square of `statistics.stdev` (the
square root of a rational is not rational); every claim proved here is
insensitive to this representation, and the 2-decimal rounding of the
reported stddev is likewise not representable on the square. -/
structure FloatStats where
  median : ℚ
  mean : ℚ
  stddevSq : ℚ
  min : ℚ
  max : ℚ
deriving Repr, DecidableEq

/-- Python `int(...)` on a float: truncation toward zero. -/
def ratTrunc (q : ℚ) : ℤ := if 0 ≤ q then ⌊q⌋ else ⌈q⌉

/-- The `peak_rss_bytes` statistics block of `_aggregate_runs`: every value
passed through `int(...)`, no rounding. `stddevSq` as in `FloatStats`. -/
structure IntStats where
  median : ℤ
  mean : ℤ
  stddevSq : ℚ
  min : ℤ
  max : ℤ
deriving Repr, DecidableEq

/-- `_round_stats`-rounded float statistics
(`median/mean/stddev/min/max` in `_aggregate_runs`, `src/orchestrator.py`);
the stddev is 0 for fewer than 2 samples. -/
def float_stats (xs : List ℚ) (decimals : ℕ) : FloatStats :=
  { median := roundFloat (medianQ xs) decimals
    mean := roundFloat (meanQ xs) decimals
    stddevSq := if 1 < xs.length then varianceQ xs else 0
    min := roundFloat ((xs.min?).getD 0) decimals
    max := roundFloat ((xs.max?).getD 0) decimals }

/-- Integer statistics for `peak_rss_bytes` in `_aggregate_runs`. -/
def int_stats (xs : List ℤ) : IntStats :=
  { median := ratTrunc (medianQ (xs.map (fun v => (v : ℚ))))
    mean := ratTrunc (meanQ (xs.map (fun v => (v : ℚ))))
    stddevSq := if 1 < xs.length then varianceQ (xs.map (fun v => (v : ℚ))) else 0
    min := (xs.min?).getD 0
    max := (xs.max?).getD 0 }

/-- The aggregate record produced by `_aggregate_runs`
(`src/orchestrator.py`): duration and throughput statistics are always
present; CPU and peak-RSS statistics are optional. -/
structure Aggregated where
  duration_seconds : FloatStats
  throughput_rows_per_sec : FloatStats
  rows : ℕ
  cpu_percent : Option FloatStats
  peak_rss_bytes : Option IntStats
deriving Repr, DecidableEq

/-- Embeds `_aggregate_runs(run_results)` (`src/orchestrator.py`).
`cpu_percents` is `[r.get("cpu_percent", 0.0) for r in run_results if
r.get("cpu_percent")]` — the metric values of exactly those runs whose value
is truthy (non-null and nonzero) — and the CPU block is attached when that
list is non-empty (`if cpu_percents:`); `peak_rss_values` likewise. The
`rows` field is `run_results[0]["rows"]`; Python raises `IndexError` on an
empty input, modelled as `none`. -/
def aggregate_runs (run_results : List MergedResult) : Option Aggregated :=
  match run_results with
  | [] => none
  | r0 :: _ =>
    some
      { duration_seconds := float_stats (run_results.map (fun r => r.duration_seconds)) 2
        throughput_rows_per_sec :=
          float_stats (run_results.map (fun r => r.throughput_rows_per_sec)) 2
        rows := r0.rows
        cpu_percent :=
          if ((run_results.filter (fun r => truthyQ r.cpu_percent)).map
              (fun r => r.cpu_percent.getD 0)) = [] then none
          else some (float_stats ((run_results.filter (fun r => truthyQ r.cpu_percent)).map
            (fun r => r.cpu_percent.getD 0)) 1)
        peak_rss_bytes :=
          if ((run_results.filter (fun r => truthyZ r.peak_rss_bytes)).map
              (fun r => r.peak_rss_bytes.getD 0)) = [] then none
          else some (int_stats ((run_results.filter (fun r => truthyZ r.peak_rss_bytes)).map
            (fun r => r.peak_rss_bytes.getD 0))) }

/-- A run whose merged result carries CPU and RSS measurements. -/
def sampleRunWithCpu : MergedResult :=
  ⟨100, 1, 100, some 5, some 10, none, none, none, ⟨"s", 0, 1, 1, some 5, some 10⟩⟩

/-- A run whose merged result carries neither CPU nor RSS measurements. -/
def sampleRunWithoutCpu : MergedResult :=
  ⟨100, 2, 50, none, none, none, none, none, ⟨"s", 0, 2, 2, none, none⟩⟩

/-- C7 counterexample: aggregating one run that reports `cpu_percent` with
one that does not still attaches the CPU statistics block, although the
metric is not present in all of the individual runs — the claim's
"exactly when present in all runs, omitted otherwise" fails at this input
(the code attaches the block when any run has a truthy value). -/
theorem c7_counterexample :
    (aggregate_runs [sampleRunWithCpu, sampleRunWithoutCpu]).map
        (fun a => a.cpu_percent.isSome) = some true ∧
    ¬ (∀ r ∈ [sampleRunWithCpu, sampleRunWithoutCpu], r.cpu_percent.isSome = true) := by
  constructor
  · have h1 : truthyQ sampleRunWithCpu.cpu_percent = true := by
      simp [truthyQ, sampleRunWithCpu]
    have h2 : truthyQ sampleRunWithoutCpu.cpu_percent = false := by
      simp [truthyQ, sampleRunWithoutCpu]
    simp [aggregate_runs, h1, h2]
  · intro h
    have := h sampleRunWithoutCpu (by simp)
    simp [sampleRunWithoutCpu] at this

/-- C7 amended: for a non-empty run list, `_aggregate_runs` attaches the
`cpu_percent` (resp. `peak_rss_bytes`) statistics block exactly when at
least one individual run reports a non-null, nonzero value for that metric
(the statistics are computed over exactly those runs); the aggregate's
`rows` field equals the first run's `rows`. -/
lemma filter_map_nil_iff {α β : Type} (p : α → Bool) (f : α → β) (l : List α) :
    ((l.filter p).map f = []) ↔ ¬ ∃ r ∈ l, p r = true := by
  rw [List.map_eq_nil_iff, List.filter_eq_nil_iff]
  constructor
  · rintro hall ⟨r, hr, ht⟩
    exact absurd ht (by simpa using hall r hr)
  · intro hnone r hr
    simp only [Bool.not_eq_true]
    by_contra hc
    exact hnone ⟨r, hr, by simpa using hc⟩

theorem c7_aggregate_presence_amended (r0 : MergedResult) (rest : List MergedResult) :
    ∃ agg, aggregate_runs (r0 :: rest) = some agg ∧
      (agg.cpu_percent.isSome = true ↔ ∃ r ∈ r0 :: rest, truthyQ r.cpu_percent = true) ∧
      (agg.peak_rss_bytes.isSome = true ↔
        ∃ r ∈ r0 :: rest, truthyZ r.peak_rss_bytes = true) ∧
      agg.rows = r0.rows := by
  refine ⟨_, rfl, ?_, ?_, rfl⟩
  · show (if ((r0 :: rest).filter (fun r => truthyQ r.cpu_percent)).map
        (fun r => r.cpu_percent.getD 0) = [] then none
      else some (float_stats (((r0 :: rest).filter (fun r => truthyQ r.cpu_percent)).map
        (fun r => r.cpu_percent.getD 0)) 1)).isSome = true ↔
      ∃ r ∈ r0 :: rest, truthyQ r.cpu_percent = true
    have hiff := filter_map_nil_iff (fun r => truthyQ r.cpu_percent)
      (fun r : MergedResult => r.cpu_percent.getD 0) (r0 :: rest)
    by_cases hc : ((r0 :: rest).filter (fun r => truthyQ r.cpu_percent)).map
        (fun r => r.cpu_percent.getD 0) = []
    · rw [if_pos hc]
      exact iff_of_false (by simp) (hiff.mp hc)
    · rw [if_neg hc]
      refine iff_of_true rfl ?_
      by_contra hk
      exact hc (hiff.mpr hk)
  · show (if ((r0 :: rest).filter (fun r => truthyZ r.peak_rss_bytes)).map
        (fun r => r.peak_rss_bytes.getD 0) = [] then none
      else some (int_stats (((r0 :: rest).filter (fun r => truthyZ r.peak_rss_bytes)).map
        (fun r => r.peak_rss_bytes.getD 0)))).isSome = true ↔
      ∃ r ∈ r0 :: rest, truthyZ r.peak_rss_bytes = true
    have hiff := filter_map_nil_iff (fun r => truthyZ r.peak_rss_bytes)
      (fun r : MergedResult => r.peak_rss_bytes.getD 0) (r0 :: rest)
    by_cases hc : ((r0 :: rest).filter (fun r => truthyZ r.peak_rss_bytes)).map
        (fun r => r.peak_rss_bytes.getD 0) = []
    · rw [if_pos hc]
      exact iff_of_false (by simp) (hiff.mp hc)
    · rw [if_neg hc]
      refine iff_of_true rfl ?_
      by_contra hk
      exact hc (hiff.mpr hk)

/-- C2: `_merge_result` takes `duration_seconds`, `throughput_rows_per_sec`,
`peak_rss_bytes` and `cpu_percent` from the profiler stats alone, ignoring the
strategy-reported values (the right-hand sides below mention only `s` and the
`rows` count): throughput is the rows count divided by the (2-decimal rounded)
profiler duration, rounded to 2 decimals, and 0 when that duration is 0.
In particular a strategy report of duration=1.0, throughput=100.0, rss=999,
cpu=99.9 with rows=100 merged against profiler measurements duration=2.0,
rss=123, cpu=12.34 yields duration=2.0, throughput=50.0, rss=123, cpu=12.3. -/
theorem c2_merge_result_profiler_overrides :
    (∀ (r : StrategyResult) (s : ProfileStats),
      (merge_result r s).duration_seconds = roundFloat s.duration_seconds 2 ∧
      (merge_result r s).peak_rss_bytes = s.peak_rss_bytes ∧
      (merge_result r s).cpu_percent =
        (if truthyQ s.cpu_percent then some (roundFloat (s.cpu_percent.getD 0) 1)
         else none) ∧
      (merge_result r s).throughput_rows_per_sec =
        (if roundFloat s.duration_seconds 2 ≠ 0
         then roundFloat ((r.rows.getD 0 : ℚ) / roundFloat s.duration_seconds 2) 2
         else 0)) ∧
    (merge_result
        ⟨some 100, some 1, some 100, some 999, some (999/10), none, none, none⟩
        ⟨"test", 1, 3, 2, some 123, none, some (1234/100)⟩).duration_seconds = 2 ∧
    (merge_result
        ⟨some 100, some 1, some 100, some 999, some (999/10), none, none, none⟩
        ⟨"test", 1, 3, 2, some 123, none, some (1234/100)⟩).throughput_rows_per_sec = 50 ∧
    (merge_result
        ⟨some 100, some 1, some 100, some 999, some (999/10), none, none, none⟩
        ⟨"test", 1, 3, 2, some 123, none, some (1234/100)⟩).peak_rss_bytes = some 123 ∧
    (merge_result
        ⟨some 100, some 1, some 100, some 999, some (999/10), none, none, none⟩
        ⟨"test", 1, 3, 2, some 123, none, some (1234/100)⟩).cpu_percent = some (123/10) := by
  refine ⟨fun r s => ⟨rfl, rfl, rfl, rfl⟩, ?_, ?_, rfl, ?_⟩
  · show roundFloat 2 2 = 2
    simpa using roundFloat_of_int 2 2
  · show (if roundFloat 2 2 ≠ 0 then roundFloat ((100 : ℚ) / roundFloat 2 2) 2 else 0) = 50
    have h2 : roundFloat 2 2 = 2 := by simpa using roundFloat_of_int 2 2
    rw [h2, if_pos (by norm_num : (2 : ℚ) ≠ 0),
      (by norm_num : ((100 : ℚ) / 2) = 50)]
    simpa using roundFloat_of_int 50 2
  · show (if truthyQ (some (1234/100)) then some (roundFloat (((1234 : ℚ)/100)) 1)
          else none) = some (123/10)
    have ht : truthyQ (some ((1234 : ℚ)/100)) = true := by
      simp [truthyQ]
    rw [if_pos ht]
    unfold roundFloat pyRoundInt
    norm_num [round_eq]

/-- C10: after `_merge_result`, `cpu_percent` is `None` both when the profiler
measured no CPU value and when it measured exactly zero; the two merged
records are equal in every field, so a measured zero-CPU run is
indistinguishable from an unmeasured one at the result interface. -/
theorem c10_merged_cpu_zero_equals_missing :
    ∀ (r : StrategyResult) (s : ProfileStats),
      merge_result r { s with cpu_percent := none } =
        merge_result r { s with cpu_percent := some 0 } ∧
      (merge_result r { s with cpu_percent := none }).cpu_percent = none := by
  intro r s
  constructor
  · have h : truthyQ (some (0 : ℚ)) = false := by simp [truthyQ]
    simp [merge_result, truthyQ, h]
  · rfl
